import Mathlib

/-!
Verification of the GroundingDINO ONNX export script (`export.py`).

The script wraps a pretrained detection model (`Model.forward`), preprocesses
captions (`preprocess_caption`), exports the wrapped model to ONNX, and
validates the exported graph (`inference_onnx`) against the native model
(`inference`).  The underlying neural network is opaque: it is modelled as a
parameter producing a `GDINOOutput`.  Tensors are modelled as (nested) lists;
floating-point numbers as real numbers; Python strings as lists of Unicode
code points (naturals).
-/

namespace GDINOExport

/-! ### Caption preprocessing (`export.py` lines 65-69)

Python strings are modelled as lists of code points.  `str.lower` is modelled
on the ASCII range (the only range exercised by the script: all captions in
the source are ASCII); `str.strip` removes leading and trailing whitespace
code points. -/

/-- Code-point model of Python's `str.lower` on the ASCII range: uppercase
letters (65-90) are shifted to lowercase (97-122); all else is unchanged. -/
def toLowerCode (n : ℕ) : ℕ := if 65 ≤ n ∧ n ≤ 90 then n + 32 else n

/-- ASCII-range whitespace as recognized by Python's `str.strip`:
tab (9), LF (10), VT (11), FF (12), CR (13), FS/GS/RS/US (28-31), space (32). -/
def isPyWs (n : ℕ) : Bool :=
  decide (n = 9 ∨ n = 10 ∨ n = 11 ∨ n = 12 ∨ n = 13 ∨ n = 28 ∨ n = 29 ∨ n = 30 ∨ n = 31 ∨ n = 32)

/-- `caption.lower()`: per-code-point lowercasing. -/
def pyLower (s : List ℕ) : List ℕ := s.map toLowerCode

/-- `s.strip()`: drop whitespace from the front, then from the back. -/
def pyStrip (s : List ℕ) : List ℕ :=
  ((s.dropWhile isPyWs).reverse.dropWhile isPyWs).reverse

/-- Code-point list of a concrete ASCII string, for concrete test inputs. -/
def codes (s : String) : List ℕ := s.toList.map Char.toNat

/-- The code point of `'.'`. -/
def dot : ℕ := 46

/-- `preprocess_caption` (`export.py` lines 65-69):
`result = caption.lower().strip()`; if `result.endswith(".")` return it,
else return `result + "."`. -/
def preprocess_caption (caption : List ℕ) : List ℕ :=
  let result := pyStrip (pyLower caption)
  if result.getLast? = some dot then result else result ++ [dot]

/-- Number of trailing `'.'` code points of a string (used to state the
"single trailing period" property). -/
def trailingDots (s : List ℕ) : ℕ := (s.reverse.takeWhile (· == dot)).length

/-- Every code point is a fixed point of lowercasing (no uppercase letters). -/
def allLower (s : List ℕ) : Bool := s.all (fun n => toLowerCode n == n)

/-- Neither end of the string carries whitespace. -/
def strippedEnds (s : List ℕ) : Bool :=
  !(s.head?.any isPyWs) && !(s.getLast?.any isPyWs)

/-! ### The wrapped model's forward pass (`export.py` lines 16-50)

`Model.forward` takes an image, token ids and two scalar thresholds, feeds the
underlying network, and post-processes:

```
prediction_logits = outputs["pred_logits"].sigmoid().squeeze(0)   # (nq, ntok)
prediction_boxes  = outputs["pred_boxes"].squeeze(0)              # (nq, 4)
mask = prediction_logits.max(dim=1)[0] > box_threshold
prediction_logits = prediction_logits[mask]
prediction_input_ids_mask = prediction_logits > text_threshold
prediction_boxes = prediction_boxes[mask]
return logits.max(dim=1)[0].unsqueeze(0), boxes.unsqueeze(0), mask.unsqueeze(0)
```

A 2-D tensor is a list of rows.  `t.max(dim=1)[0]` is the per-row maximum:
`List.maximum : List α → WithBot α` (⊥ corresponds to an empty token
dimension, on which PyTorch would raise; in the script the token dimension is
a tokenized caption, never empty).  Boolean-mask indexing `t[mask]` is
`boolFilter`. -/

/-- Boolean-mask tensor indexing `t[mask]`: keep the rows whose mask entry is
`true`. -/
def boolFilter {β : Type} : List Bool → List β → List β
  | true :: ms, x :: rest => x :: boolFilter ms rest
  | false :: ms, _ :: rest => boolFilter ms rest
  | _, _ => []

/-- The post-processing of `Model.forward` after the sigmoid (lines 45-50),
generic in the ordered scalar type: the keep mask, the filtered logits, the
per-token text-threshold mask and the filtered boxes.  Returns
(per-detection max logit, kept boxes, kept token masks). -/
def postFilter {α : Type} [LinearOrder α]
    (prediction_logits : List (List α)) (prediction_boxes : List (List α))
    (box_threshold text_threshold : α) :
    List (WithBot α) × List (List α) × List (List Bool) :=
  let mask : List Bool :=
    prediction_logits.map (fun row => decide ((box_threshold : WithBot α) < row.maximum))
  let kept_logits := boolFilter mask prediction_logits
  let prediction_input_ids_mask :=
    kept_logits.map (fun row => row.map (fun x => decide (text_threshold < x)))
  let kept_boxes := boolFilter mask prediction_boxes
  (kept_logits.map List.maximum, kept_boxes, prediction_input_ids_mask)

/-- `torch.sigmoid`. -/
noncomputable def sigmoid (x : ℝ) : ℝ := 1 / (1 + Real.exp (-x))

/-- The underlying model's raw output, batch dimension already squeezed:
`pred_logits` has one row of per-token class logits per candidate box (shape
(nq, ntok)); `pred_boxes` has one `cxcywh` box per candidate (shape (nq, 4)). -/
structure GDINOOutput where
  pred_logits : List (List ℝ)
  pred_boxes : List (List ℝ)

/-- `token_type_ids = torch.zeros(input_ids.size())` (line 38). -/
def tokenTypeIds (input_ids : List ℤ) : List ℤ := input_ids.map (fun _ => 0)

/-- `attention_mask = (input_ids != 0).int()` (line 39). -/
def attentionMask (input_ids : List ℤ) : List ℤ :=
  input_ids.map (fun i => if i ≠ 0 then 1 else 0)

/-- `tensor.unsqueeze(0)`: wrap in a leading batch dimension of size 1. -/
def batch1 {β : Type} (x : β) : List β := [x]

/-- `outputs = self.model(image, input_ids, attention_mask, token_type_ids)`
(line 41), with the underlying network `net` as an opaque parameter. -/
def Model.rawOutput {Img : Type} (net : Img → List ℤ → List ℤ → List ℤ → GDINOOutput)
    (image : Img) (input_ids : List ℤ) : GDINOOutput :=
  net image input_ids (attentionMask input_ids) (tokenTypeIds input_ids)

/-- `Model.forward` (lines 32-50): run the underlying network, apply sigmoid
to the logits, filter by the box threshold, and return the three outputs each
with a leading batch dimension (`unsqueeze(0)`). -/
noncomputable def Model.forward {Img : Type}
    (net : Img → List ℤ → List ℤ → List ℤ → GDINOOutput)
    (image : Img) (input_ids : List ℤ) (box_threshold text_threshold : ℝ) :
    List (List (WithBot ℝ)) × List (List (List ℝ)) × List (List (List Bool)) :=
  let outputs := Model.rawOutput net image input_ids
  let prediction_logits := outputs.pred_logits.map (fun row => row.map sigmoid)
  let r := postFilter prediction_logits outputs.pred_boxes box_threshold text_threshold
  (batch1 r.1, batch1 r.2.1, batch1 r.2.2)

/-! ### Test-mode phrase decoding (`export.py` lines 133-167) -/

/-- The caption used by the exported-graph test path:
`caption = preprocess_caption("dog.cat")` (line 139). -/
def testModeCaption : List ℕ := preprocess_caption (codes "dog.cat")

/-- The caption used by the native-model path:
`caption = preprocess_caption("cat . dog")` (line 105). -/
def origModeCaption : List ℕ := preprocess_caption (codes "cat . dog")

/-- `[input_ids[i] for i in mask.nonzero(as_tuple=True)[0].tolist()]`
(line 158): the token ids at the mask's true positions. -/
def phraseTokenIds (input_ids : List ℤ) (mask : List Bool) : List ℤ :=
  boolFilter mask input_ids

/-- `decoded.replace('.', '')` (line 159): strip the structural periods from a
decoded phrase, modelled at the code-point level. -/
def stripPeriods (s : List ℕ) : List ℕ := s.filter (fun c => c ≠ dot)

/-! ### Command-line interface (`export.py` lines 169-181)

`argparse` with two independent `store_true` switches (`--test`/`-t`,
`--orig`/`-n`) and three required string options (`--config_file`/`-c`,
`--checkpoint_path`/`-p`, `--output_dir`/`-o`).  Option values are supplied as
separate tokens; an unrecognized token, a missing value or a missing required
option is a parse error. -/

/-- Parsed command-line arguments. -/
structure Args where
  test : Bool
  orig : Bool
  config_file : Option String
  checkpoint_path : Option String
  output_dir : Option String
deriving DecidableEq

/-- The state before any token is consumed. -/
def Args.init : Args := ⟨false, false, none, none, none⟩

/-- Consume the token stream, mirroring the `add_argument` declarations:
`store_true` switches set a flag; value options consume the next token. -/
def parseTokens : List String → Args → Option Args
  | [], acc => some acc
  | tok :: rest, acc =>
    if tok = "--test" ∨ tok = "-t" then
      parseTokens rest { acc with test := true }
    else if tok = "--orig" ∨ tok = "-n" then
      parseTokens rest { acc with orig := true }
    else if tok = "--config_file" ∨ tok = "-c" then
      match rest with
      | [] => none
      | v :: rest2 => parseTokens rest2 { acc with config_file := some v }
    else if tok = "--checkpoint_path" ∨ tok = "-p" then
      match rest with
      | [] => none
      | v :: rest2 => parseTokens rest2 { acc with checkpoint_path := some v }
    else if tok = "--output_dir" ∨ tok = "-o" then
      match rest with
      | [] => none
      | v :: rest2 => parseTokens rest2 { acc with output_dir := some v }
    else none

/-- `parser.parse_args()`: parse the tokens, then enforce the three
`required=True` options. -/
def parseArgs (argv : List String) : Option Args :=
  (parseTokens argv Args.init).bind (fun a =>
    if a.config_file.isSome && a.checkpoint_path.isSome && a.output_dir.isSome
    then some a else none)

/-- The three execution modes of the `if args.test / elif args.orig / else`
dispatch (lines 193-198). -/
inductive RunMode where
  | runTestOnnx
  | runOrigInference
  | runExportOnnx
deriving DecidableEq

/-- `if args.test: inference_onnx(...) elif args.orig: inference(...) else:
export_onnx(...)` (lines 193-198). -/
def dispatch (a : Args) : RunMode :=
  if a.test then .runTestOnnx
  else if a.orig then .runOrigInference
  else .runExportOnnx

/-! ### Module-global name resolution (`export.py` lines 1-198)

`inference_onnx` reads the name `model` (line 140) without taking it as a
parameter and without a local assignment, so Python resolves it against the
module globals at call time.  The statement model below records, in source
order, each module-global binding (imports, `def`s, and the assignments of the
`__main__` block) and each module-global read performed by the executed code;
a read of an unbound name is a `NameError` (`none`). -/

/-- A module-level effect: binding a global name, or reading one. -/
inductive PyStmt where
  | assign (n : String)
  | read (n : String)

/-- Execute a statement list over the set (list) of bound global names;
`none` models a `NameError`. -/
def runPy : List PyStmt → List String → Option (List String)
  | [], env => some env
  | .assign n :: rest, env => runPy rest (n :: env)
  | .read n :: rest, env => if n ∈ env then runPy rest env else none

/-- Module initialization (lines 1-14 imports, lines 16-167 `class`/`def`
statements): each binds a module-global name. -/
def moduleInitStmts : List PyStmt :=
  [.assign "argparse", .assign "os", .assign "torch", .assign "cv2",
   .assign "np", .assign "Image", .assign "Tuple", .assign "List",
   .assign "box_convert", .assign "onnx", .assign "ort",
   .assign "load_model", .assign "annotate", .assign "T",
   .assign "get_phrases_from_posmap",
   .assign "Model", .assign "preprocess_image", .assign "preprocess_caption",
   .assign "export_onnx", .assign "inference", .assign "inference_onnx"]

/-- Global reads of `inference_onnx` (lines 133-167), in source order:
`ort` (135), `cv2` (137), `preprocess_image` (138), `preprocess_caption`
(139), `model` (140), `torch` (141), `np` (145), `torch` (151), `model`
(159), `torch` (161), `cv2` (162), `annotate` (163), `cv2` (165). -/
def inferenceOnnxStmts : List PyStmt :=
  [.read "ort", .read "cv2", .read "preprocess_image",
   .read "preprocess_caption", .read "model", .read "torch", .read "np",
   .read "torch", .read "model", .read "torch", .read "cv2",
   .read "annotate", .read "cv2"]

/-- Global reads of `inference` (lines 102-131), in source order. -/
def inferenceStmts : List PyStmt :=
  [.read "cv2", .read "preprocess_image", .read "preprocess_caption",
   .read "torch", .read "torch", .read "annotate", .read "cv2"]

/-- Global reads of `export_onnx` (lines 71-100), in source order. -/
def exportOnnxStmts : List PyStmt :=
  [.read "preprocess_caption", .read "torch", .read "torch", .read "torch",
   .read "onnx"]

/-- The `__main__` block (lines 169-198): the parser/argument assignments, the
`os.makedirs` read, the unconditional `model = Model(...)` assignment
(line 191), then the mode dispatch with the called function's body. -/
def mainStmts (test orig : Bool) : List PyStmt :=
  [.read "argparse", .assign "parser",
   .assign "args", .assign "config_file", .assign "checkpoint_path",
   .assign "output_dir", .read "os", .read "Model", .assign "model"] ++
  (if test then inferenceOnnxStmts
   else if orig then inferenceStmts
   else exportOnnxStmts)

/-- Running `python export.py` in a given mode: module initialization followed
by the `__main__` block. -/
def script (test orig : Bool) : List PyStmt :=
  moduleInitStmts ++ mainStmts test orig

/-- The module globals right after initialization (before the `__main__`
block), i.e. without `model`. -/
def moduleEnv : List String := (runPy moduleInitStmts []).getD []

/-- A minimal concrete network for instantiating the forward-pass theorems:
one candidate box, one token, logit 0, box `[0,0,0,0]`. -/
def netW : Unit → List ℤ → List ℤ → List ℤ → GDINOOutput :=
  fun _ _ _ _ => ⟨[[0]], [[0, 0, 0, 0]]⟩

/-! ### Helper lemmas: boolean-mask indexing -/

theorem boolFilter_map_filter {β : Type} (f : β → Bool) (xs : List β) :
    boolFilter (xs.map f) xs = xs.filter f := by
  induction xs with
  | nil => rfl
  | cons x rest ih =>
    cases h : f x <;> simp [boolFilter, List.filter_cons, h, ih]

theorem length_boolFilter {β : Type} (mask : List Bool) (xs : List β)
    (h : mask.length = xs.length) :
    (boolFilter mask xs).length = mask.count true := by
  induction mask generalizing xs with
  | nil => simp [boolFilter]
  | cons b ms ih =>
    cases xs with
    | nil => simp at h
    | cons x rest =>
      have h' : ms.length = rest.length := by simpa using h
      cases b <;> simp [boolFilter, List.count_cons, ih rest h']

theorem boolFilter_eq_nil {β : Type} {mask : List Bool} (xs : List β)
    (h : ∀ b ∈ mask, b = false) : boolFilter mask xs = [] := by
  induction mask generalizing xs with
  | nil => rfl
  | cons b ms ih =>
    have hb : b = false := h b (List.mem_cons_self b ms)
    cases xs with
    | nil => subst hb; rfl
    | cons x rest =>
      subst hb
      simpa [boolFilter] using ih rest (fun b hb => h b (List.mem_cons_of_mem _ hb))

theorem boolFilter_eq_self {β : Type} {mask : List Bool} {xs : List β}
    (hlen : mask.length = xs.length) (h : ∀ b ∈ mask, b = true) :
    boolFilter mask xs = xs := by
  induction mask generalizing xs with
  | nil =>
    cases xs with
    | nil => rfl
    | cons x rest => simp at hlen
  | cons b ms ih =>
    cases xs with
    | nil => simp at hlen
    | cons x rest =>
      have hb : b = true := h b (List.mem_cons_self b ms)
      subst hb
      have h' : ms.length = rest.length := by simpa using hlen
      simpa [boolFilter] using ih h' (fun b hb => h b (List.mem_cons_of_mem _ hb))

theorem mem_of_mem_boolFilter {β : Type} {mask : List Bool} {xs : List β} {x : β}
    (h : x ∈ boolFilter mask xs) : x ∈ xs := by
  induction mask generalizing xs with
  | nil => simp [boolFilter] at h
  | cons b ms ih =>
    cases xs with
    | nil => cases b <;> simp [boolFilter] at h
    | cons y rest =>
      cases b with
      | false => exact List.mem_cons_of_mem _ (ih (by simpa [boolFilter] using h))
      | true =>
        rcases (by simpa [boolFilter] using h : x = y ∨ x ∈ boolFilter ms rest) with h1 | h1
        · exact h1 ▸ List.mem_cons_self y rest
        · exact List.mem_cons_of_mem _ (ih h1)

/-! ### Helper lemmas: the post-sigmoid filter -/

theorem postFilter_scores_eq {α : Type} [LinearOrder α]
    (logits boxes : List (List α)) (bt tt : α) :
    (postFilter logits boxes bt tt).1 =
      (logits.filter (fun row => decide ((bt : WithBot α) < row.maximum))).map List.maximum := by
  simp only [postFilter, boolFilter_map_filter]

theorem postFilter_eq_nil {α : Type} [LinearOrder α]
    {logits : List (List α)} (boxes : List (List α)) {bt : α} (tt : α)
    (h : ∀ row ∈ logits, ¬ ((bt : WithBot α) < row.maximum)) :
    postFilter logits boxes bt tt = ([], [], []) := by
  have hmask : ∀ b ∈ logits.map (fun row => decide ((bt : WithBot α) < row.maximum)),
      b = false := by
    intro b hb
    rcases List.mem_map.1 hb with ⟨row, hrow, rfl⟩
    simpa using h row hrow
  simp only [postFilter, boolFilter_eq_nil _ hmask, List.map_nil]

theorem postFilter_lengths {α : Type} [LinearOrder α]
    (logits boxes : List (List α)) (bt tt : α)
    (hb : boxes.length = logits.length) :
    (postFilter logits boxes bt tt).1.length = (postFilter logits boxes bt tt).2.1.length
  ∧ (postFilter logits boxes bt tt).2.1.length = (postFilter logits boxes bt tt).2.2.length
  ∧ (postFilter logits boxes bt tt).1.length ≤ logits.length := by
  simp only [postFilter, List.length_map]
  have hmlen : (logits.map (fun row => decide ((bt : WithBot α) < row.maximum))).length
      = logits.length := List.length_map _ _
  have h1 := length_boolFilter
    (logits.map (fun row => decide ((bt : WithBot α) < row.maximum))) logits hmlen
  have h2 := length_boolFilter
    (logits.map (fun row => decide ((bt : WithBot α) < row.maximum))) boxes
    (hmlen.trans hb.symm)
  refine ⟨by rw [h1, h2], by rw [h2, h1], ?_⟩
  calc (boolFilter _ logits).length
      = _ := h1
    _ ≤ (logits.map (fun row => decide ((bt : WithBot α) < row.maximum))).length :=
        List.count_le_length _ _
    _ = logits.length := hmlen

theorem postFilter_keep_all {α : Type} [LinearOrder α]
    {logits : List (List α)} (boxes : List (List α)) {bt : α} (tt : α)
    (hb : boxes.length = logits.length)
    (h : ∀ row ∈ logits, (bt : WithBot α) < row.maximum) :
    (postFilter logits boxes bt tt).1.length = logits.length
  ∧ (postFilter logits boxes bt tt).2.1 = boxes
  ∧ (postFilter logits boxes bt tt).2.2.length = logits.length := by
  have hmask : ∀ b ∈ logits.map (fun row => decide ((bt : WithBot α) < row.maximum)),
      b = true := by
    intro b hb'
    rcases List.mem_map.1 hb' with ⟨row, hrow, rfl⟩
    simpa using h row hrow
  have hmlen : (logits.map (fun row => decide ((bt : WithBot α) < row.maximum))).length
      = logits.length := List.length_map _ _
  have hlog : boolFilter (logits.map (fun row => decide ((bt : WithBot α) < row.maximum)))
      logits = logits := boolFilter_eq_self hmlen hmask
  have hbox : boolFilter (logits.map (fun row => decide ((bt : WithBot α) < row.maximum)))
      boxes = boxes := boolFilter_eq_self (hmlen.trans hb.symm) hmask
  simp only [postFilter, hlog, hbox, List.length_map, and_self, true_and]

theorem mem_postFilter_scores {α : Type} [LinearOrder α]
    {logits boxes : List (List α)} {bt tt : α} {s : WithBot α}
    (hs : s ∈ (postFilter logits boxes bt tt).1) :
    (bt : WithBot α) < s ∧ ∃ row ∈ logits, s = row.maximum := by
  rw [postFilter_scores_eq] at hs
  rcases List.mem_map.1 hs with ⟨row, hrow, rfl⟩
  rcases List.mem_filter.1 hrow with ⟨hmem, hkeep⟩
  exact ⟨of_decide_eq_true hkeep, row, hmem, rfl⟩

/-! ### Helper lemmas: the sigmoid -/

theorem sigmoid_pos (x : ℝ) : 0 < sigmoid x := by
  unfold sigmoid
  positivity

theorem sigmoid_lt_one (x : ℝ) : sigmoid x < 1 := by
  unfold sigmoid
  rw [div_lt_one (by positivity)]
  linarith [Real.exp_pos (-x)]

/-- Unfolding `Model.forward` into its post-sigmoid filter and the batch
wrapper. -/
theorem Model.forward_def {Img : Type}
    (net : Img → List ℤ → List ℤ → List ℤ → GDINOOutput)
    (image : Img) (input_ids : List ℤ) (bt tt : ℝ) :
    Model.forward net image input_ids bt tt =
      (batch1 (postFilter ((Model.rawOutput net image input_ids).pred_logits.map
          (fun row => row.map sigmoid))
          (Model.rawOutput net image input_ids).pred_boxes bt tt).1,
       batch1 (postFilter ((Model.rawOutput net image input_ids).pred_logits.map
          (fun row => row.map sigmoid))
          (Model.rawOutput net image input_ids).pred_boxes bt tt).2.1,
       batch1 (postFilter ((Model.rawOutput net image input_ids).pred_logits.map
          (fun row => row.map sigmoid))
          (Model.rawOutput net image input_ids).pred_boxes bt tt).2.2) := rfl

/-! ### Claim theorems: the forward pass -/

/-- C1: for every image, token-id tensor and thresholds, the three outputs of
the wrapped model's forward share the same leading detections-count dimension,
and that count is at most the number of raw candidate boxes produced by the
underlying model. -/
theorem forward_outputs_share_detection_count {Img : Type}
    (net : Img → List ℤ → List ℤ → List ℤ → GDINOOutput)
    (image : Img) (input_ids : List ℤ) (bt tt : ℝ)
    (hb : (Model.rawOutput net image input_ids).pred_boxes.length
        = (Model.rawOutput net image input_ids).pred_logits.length) :
    ((Model.forward net image input_ids bt tt).1.headD []).length
      = ((Model.forward net image input_ids bt tt).2.1.headD []).length
  ∧ ((Model.forward net image input_ids bt tt).2.1.headD []).length
      = ((Model.forward net image input_ids bt tt).2.2.headD []).length
  ∧ ((Model.forward net image input_ids bt tt).2.2.headD []).length
      ≤ (Model.rawOutput net image input_ids).pred_logits.length := by
  rw [Model.forward_def]
  simp only [batch1, List.headD_cons]
  obtain ⟨h1, h2, h3⟩ := postFilter_lengths
    ((Model.rawOutput net image input_ids).pred_logits.map (fun row => row.map sigmoid))
    (Model.rawOutput net image input_ids).pred_boxes bt tt
    (by rw [List.length_map]; exact hb)
  refine ⟨h1, h2, ?_⟩
  calc (postFilter _ _ bt tt).2.2.length
      = (postFilter _ _ bt tt).1.length := (h1.trans h2).symm
    _ ≤ ((Model.rawOutput net image input_ids).pred_logits.map
          (fun row => row.map sigmoid)).length := h3
    _ = (Model.rawOutput net image input_ids).pred_logits.length := List.length_map _ _

/-- Witness for C1 at a concrete one-candidate network. -/
theorem forward_outputs_share_detection_count_witness :
    ((Model.forward netW () [] (35/100) (25/100)).1.headD []).length
      = ((Model.forward netW () [] (35/100) (25/100)).2.1.headD []).length
  ∧ ((Model.forward netW () [] (35/100) (25/100)).2.1.headD []).length
      = ((Model.forward netW () [] (35/100) (25/100)).2.2.headD []).length
  ∧ ((Model.forward netW () [] (35/100) (25/100)).2.2.headD []).length
      ≤ (Model.rawOutput netW () []).pred_logits.length :=
  forward_outputs_share_detection_count netW () [] (35/100) (25/100) rfl

/-- C2: if no candidate box's maximum sigmoid logit exceeds the box threshold,
the wrapped model's forward returns all three outputs empty along the
detections dimension. -/
theorem forward_empty_when_none_exceed {Img : Type}
    (net : Img → List ℤ → List ℤ → List ℤ → GDINOOutput)
    (image : Img) (input_ids : List ℤ) (bt tt : ℝ)
    (h : ∀ row ∈ (Model.rawOutput net image input_ids).pred_logits,
        ¬ ((bt : WithBot ℝ) < (row.map sigmoid).maximum)) :
    Model.forward net image input_ids bt tt = ([[]], [[]], [[]]) := by
  rw [Model.forward_def]
  have h' : ∀ row ∈ (Model.rawOutput net image input_ids).pred_logits.map
      (fun row => row.map sigmoid), ¬ ((bt : WithBot ℝ) < row.maximum) := by
    intro row hrow
    rcases List.mem_map.1 hrow with ⟨r, hr, rfl⟩
    exact h r hr
  rw [postFilter_eq_nil (Model.rawOutput net image input_ids).pred_boxes tt h']
  rfl

/-- Witness for C2: one candidate with logit 0 and box threshold 1. -/
theorem forward_empty_when_none_exceed_witness :
    Model.forward netW () [] 1 (25/100) = ([[]], [[]], [[]]) :=
  forward_empty_when_none_exceed netW () [] 1 (25/100) (by
    intro row hrow
    have hr : row = [(0:ℝ)] := by simpa [Model.rawOutput, netW] using hrow
    subst hr
    simp only [List.map_cons, List.map_nil, List.maximum_singleton]
    exact fun hlt => absurd (WithBot.coe_lt_coe.1 hlt) (not_lt.2 (sigmoid_lt_one 0).le))

/-- C5: with the box threshold set to 1.0, the wrapped model's forward returns
zero detections: no sigmoid logit reaches 1 and the comparison is strict. -/
theorem forward_threshold_one_empty {Img : Type}
    (net : Img → List ℤ → List ℤ → List ℤ → GDINOOutput)
    (image : Img) (input_ids : List ℤ) (tt : ℝ) :
    Model.forward net image input_ids 1 tt = ([[]], [[]], [[]]) := by
  rw [Model.forward_def]
  have h' : ∀ row ∈ (Model.rawOutput net image input_ids).pred_logits.map
      (fun row => row.map sigmoid), ¬ (((1:ℝ) : WithBot ℝ) < row.maximum) := by
    intro row hrow
    rcases List.mem_map.1 hrow with ⟨r, hr, rfl⟩
    have hle : (r.map sigmoid).maximum ≤ ((1:ℝ) : WithBot ℝ) := by
      apply List.maximum_le_of_forall_le
      intro a ha
      rcases List.mem_map.1 ha with ⟨x, hx, rfl⟩
      exact WithBot.coe_le_coe.2 (sigmoid_lt_one x).le
    exact not_lt.2 hle
  rw [postFilter_eq_nil (Model.rawOutput net image input_ids).pred_boxes tt h']
  rfl

/-- C6: with the box threshold set to 0.0 every raw candidate box is kept: the
detection count of each output equals the number of raw candidate boxes. -/
theorem forward_threshold_zero_keeps_all {Img : Type}
    (net : Img → List ℤ → List ℤ → List ℤ → GDINOOutput)
    (image : Img) (input_ids : List ℤ) (tt : ℝ)
    (hb : (Model.rawOutput net image input_ids).pred_boxes.length
        = (Model.rawOutput net image input_ids).pred_logits.length)
    (hrow : ∀ row ∈ (Model.rawOutput net image input_ids).pred_logits, row ≠ []) :
    ((Model.forward net image input_ids 0 tt).1.headD []).length
      = (Model.rawOutput net image input_ids).pred_logits.length
  ∧ ((Model.forward net image input_ids 0 tt).2.1.headD []).length
      = (Model.rawOutput net image input_ids).pred_logits.length
  ∧ ((Model.forward net image input_ids 0 tt).2.2.headD []).length
      = (Model.rawOutput net image input_ids).pred_logits.length := by
  rw [Model.forward_def]
  simp only [batch1, List.headD_cons]
  have h' : ∀ row ∈ (Model.rawOutput net image input_ids).pred_logits.map
      (fun row => row.map sigmoid), ((0:ℝ) : WithBot ℝ) < row.maximum := by
    intro row hrowm
    rcases List.mem_map.1 hrowm with ⟨r, hr, rfl⟩
    rcases List.exists_mem_of_ne_nil r (hrow r hr) with ⟨x, hx⟩
    calc ((0:ℝ) : WithBot ℝ) < (sigmoid x : ℝ) := WithBot.coe_lt_coe.2 (sigmoid_pos x)
      _ ≤ (r.map sigmoid).maximum :=
          List.le_maximum_of_mem' (List.mem_map_of_mem sigmoid hx)
  obtain ⟨h1, h2, h3⟩ := postFilter_keep_all
    (Model.rawOutput net image input_ids).pred_boxes tt
    (by rw [List.length_map]; exact hb) h'
  rw [List.length_map] at h1 h3
  exact ⟨h1, by rw [h2]; exact hb, h3⟩

/-- Witness for C6 at a concrete one-candidate, one-token network. -/
theorem forward_threshold_zero_keeps_all_witness :
    ((Model.forward netW () [] 0 (25/100)).1.headD []).length
      = (Model.rawOutput netW () []).pred_logits.length
  ∧ ((Model.forward netW () [] 0 (25/100)).2.1.headD []).length
      = (Model.rawOutput netW () []).pred_logits.length
  ∧ ((Model.forward netW () [] 0 (25/100)).2.2.headD []).length
      = (Model.rawOutput netW () []).pred_logits.length :=
  forward_threshold_zero_keeps_all netW () [] (25/100) rfl (by
    intro row hrow
    have hr : row = [(0:ℝ)] := by simpa [Model.rawOutput, netW] using hrow
    subst hr
    simp)

/-- C10: every confidence score returned by the wrapped model's forward is
strictly greater than the box threshold, and is exactly the row-maximum of the
sigmoid logits compared against the threshold in the keep filter. -/
theorem forward_scores_exceed_threshold {Img : Type}
    (net : Img → List ℤ → List ℤ → List ℤ → GDINOOutput)
    (image : Img) (input_ids : List ℤ) (bt tt : ℝ) (s : WithBot ℝ)
    (hs : s ∈ (Model.forward net image input_ids bt tt).1.headD []) :
    (bt : WithBot ℝ) < s
  ∧ ∃ row ∈ (Model.rawOutput net image input_ids).pred_logits,
      s = (row.map sigmoid).maximum := by
  rw [Model.forward_def] at hs
  simp only [batch1, List.headD_cons] at hs
  obtain ⟨hlt, row, hrow, rfl⟩ := mem_postFilter_scores hs
  rcases List.mem_map.1 hrow with ⟨r, hr, rfl⟩
  exact ⟨hlt, r, hr, rfl⟩

/-! ### Helper lemmas: caption preprocessing -/

theorem toLowerCode_idem (n : ℕ) : toLowerCode (toLowerCode n) = toLowerCode n := by
  unfold toLowerCode
  by_cases h : 65 ≤ n ∧ n ≤ 90
  · rw [if_pos h, if_neg (by omega)]
  · rw [if_neg h, if_neg h]

theorem isPyWs_toLowerCode (n : ℕ) : isPyWs (toLowerCode n) = isPyWs n := by
  unfold toLowerCode isPyWs
  split
  · exact decide_eq_decide.2 (by omega)
  · rfl

theorem pyLower_pyLower (s : List ℕ) : pyLower (pyLower s) = pyLower s := by
  unfold pyLower
  rw [List.map_map]
  exact List.map_congr_left (fun a _ => toLowerCode_idem a)

theorem dropWhile_ws_map_lower (l : List ℕ) :
    (l.map toLowerCode).dropWhile isPyWs = (l.dropWhile isPyWs).map toLowerCode := by
  induction l with
  | nil => rfl
  | cons x rest ih =>
    rw [List.map_cons, List.dropWhile_cons, List.dropWhile_cons, isPyWs_toLowerCode]
    by_cases h : isPyWs x = true
    · rw [if_pos h, if_pos h, ih]
    · rw [if_neg h, if_neg h, List.map_cons]

theorem pyLower_pyStrip (s : List ℕ) : pyLower (pyStrip s) = pyStrip (pyLower s) := by
  unfold pyLower pyStrip
  rw [dropWhile_ws_map_lower, ← List.map_reverse, dropWhile_ws_map_lower, ← List.map_reverse]

theorem head?_dropWhile_false {α : Type} {p : α → Bool} {l : List α} {n : α}
    (h : (l.dropWhile p).head? = some n) : p n = false := by
  induction l with
  | nil => simp at h
  | cons x rest ih =>
    rw [List.dropWhile_cons] at h
    by_cases hx : p x
    · rw [if_pos hx] at h
      exact ih h
    · rw [if_neg hx] at h
      simp only [List.head?_cons, Option.some.injEq] at h
      subst h
      exact Bool.not_eq_true _ ▸ (by simpa using hx)

theorem dropWhile_eq_self_of_head {α : Type} {p : α → Bool} {l : List α}
    (h : ∀ n, l.head? = some n → p n = false) : l.dropWhile p = l := by
  cases l with
  | nil => rfl
  | cons x rest =>
    rw [List.dropWhile_cons, if_neg]
    simp [h x rfl]

theorem pyStrip_getLast?_false {s : List ℕ} {n : ℕ}
    (h : (pyStrip s).getLast? = some n) : isPyWs n = false := by
  unfold pyStrip at h
  rw [List.getLast?_reverse] at h
  exact head?_dropWhile_false h

theorem pyStrip_head?_false {s : List ℕ} {n : ℕ}
    (h : (pyStrip s).head? = some n) : isPyWs n = false := by
  unfold pyStrip at h
  rw [List.head?_reverse] at h
  have hne : (s.dropWhile isPyWs).reverse.dropWhile isPyWs ≠ [] := by
    intro hnil
    rw [hnil] at h
    simp at h
  have hsplit := List.takeWhile_append_dropWhile isPyWs ((s.dropWhile isPyWs).reverse)
  have h2 : ((s.dropWhile isPyWs).reverse).getLast? = some n := by
    rw [← hsplit, List.getLast?_append_of_ne_nil _ hne]
    exact h
  rw [List.getLast?_reverse] at h2
  exact head?_dropWhile_false h2

theorem pyStrip_eq_self {s : List ℕ}
    (hh : ∀ n, s.head? = some n → isPyWs n = false)
    (hl : ∀ n, s.getLast? = some n → isPyWs n = false) : pyStrip s = s := by
  unfold pyStrip
  rw [dropWhile_eq_self_of_head hh, dropWhile_eq_self_of_head (by
    intro n hn
    rw [List.head?_reverse] at hn
    exact hl n hn), List.reverse_reverse]

theorem pyStrip_pyStrip (s : List ℕ) : pyStrip (pyStrip s) = pyStrip s :=
  pyStrip_eq_self (fun _ h => pyStrip_head?_false h) (fun _ h => pyStrip_getLast?_false h)

theorem mem_of_mem_pyStrip {x : ℕ} {s : List ℕ} (h : x ∈ pyStrip s) : x ∈ s := by
  unfold pyStrip at h
  rw [List.mem_reverse] at h
  have h1 : x ∈ (s.dropWhile isPyWs).reverse := (List.dropWhile_sublist _).subset h
  rw [List.mem_reverse] at h1
  exact (List.dropWhile_sublist _).subset h1

theorem trailingDots_pos_of_getLast {s : List ℕ} (h : s.getLast? = some dot) :
    1 ≤ trailingDots s := by
  unfold trailingDots
  rw [← List.head?_reverse] at h
  cases hrev : s.reverse with
  | nil => rw [hrev] at h; simp at h
  | cons a t =>
    rw [hrev] at h
    simp only [List.head?_cons, Option.some.injEq] at h
    subst h
    rw [List.takeWhile_cons_of_pos (by simp)]
    simp

theorem trailingDots_of_not_getLast {s : List ℕ} (h : s.getLast? ≠ some dot) :
    trailingDots (s ++ [dot]) = 1 ∧ trailingDots s = 0 := by
  have hz : trailingDots s = 0 := by
    unfold trailingDots
    rw [← List.head?_reverse] at h
    cases hrev : s.reverse with
    | nil => simp
    | cons a t =>
      rw [hrev] at h
      have ha : (a == dot) = false := by
        simp only [List.head?_cons] at h
        exact beq_eq_false_iff_ne.2 (fun had => h (by rw [had]))
      rw [List.takeWhile_cons_of_neg (by simp [ha])]
      rfl
  refine ⟨?_, hz⟩
  unfold trailingDots
  rw [List.reverse_append, List.reverse_singleton, List.singleton_append,
    List.takeWhile_cons_of_pos (by simp)]
  unfold trailingDots at hz
  simp [hz]

/-! ### Claim theorems: caption preprocessing -/

/-- C3: caption normalization is idempotent: applying `preprocess_caption` to
its own output yields the same string. -/
theorem preprocess_caption_idem (caption : List ℕ) :
    preprocess_caption (preprocess_caption caption) = preprocess_caption caption := by
  unfold preprocess_caption
  by_cases hdot : (pyStrip (pyLower caption)).getLast? = some dot
  · rw [if_pos hdot]
    have hfix : pyStrip (pyLower (pyStrip (pyLower caption))) = pyStrip (pyLower caption) := by
      rw [pyLower_pyStrip, pyStrip_pyStrip, pyLower_pyLower]
    rw [hfix, if_pos hdot]
  · rw [if_neg hdot]
    have hlowfix : pyLower (pyStrip (pyLower caption) ++ [dot])
        = pyStrip (pyLower caption) ++ [dot] := by
      have h1 : pyLower (pyStrip (pyLower caption)) = pyStrip (pyLower caption) := by
        rw [pyLower_pyStrip, pyLower_pyLower]
      calc pyLower (pyStrip (pyLower caption) ++ [dot])
          = pyLower (pyStrip (pyLower caption)) ++ pyLower [dot] := List.map_append _ _ _
        _ = pyStrip (pyLower caption) ++ [dot] := by rw [h1]; rfl
    have hstripfix : pyStrip (pyStrip (pyLower caption) ++ [dot])
        = pyStrip (pyLower caption) ++ [dot] := by
      apply pyStrip_eq_self
      · intro n hn
        cases hr : pyStrip (pyLower caption) with
        | nil =>
          rw [hr] at hn
          simp only [List.nil_append, List.head?_cons, Option.some.injEq] at hn
          subst hn
          rfl
        | cons a t =>
          rw [hr] at hn
          simp only [List.cons_append, List.head?_cons, Option.some.injEq] at hn
          subst hn
          exact pyStrip_head?_false (by rw [hr]; rfl)
      · intro n hn
        rw [List.getLast?_concat] at hn
        simp only [Option.some.injEq] at hn
        subst hn
        rfl
    rw [hlowfix, hstripfix, if_pos (List.getLast?_concat _)]

/-- C4 counterexample: for the input `"cat.."` the output is `"cat.."` itself,
which ends with two trailing periods, not exactly one. -/
theorem preprocess_caption_two_trailing_dots :
    preprocess_caption (codes "cat..") = codes "cat.."
  ∧ trailingDots (preprocess_caption (codes "cat..")) = 2 := by decide

/-- C4 (amended): `preprocess_caption` lowercases, strips surrounding
whitespace, and guarantees a trailing period; exactly one period is appended
only when the stripped lowercased caption does not already end with one, and
pre-existing trailing periods (possibly several) are preserved. -/
theorem preprocess_caption_shape (caption : List ℕ) :
    (preprocess_caption caption).getLast? = some dot
  ∧ allLower (preprocess_caption caption) = true
  ∧ strippedEnds (preprocess_caption caption) = true
  ∧ trailingDots (preprocess_caption caption)
      = max (trailingDots (pyStrip (pyLower caption))) 1 := by
  have hmem : ∀ n ∈ preprocess_caption caption, toLowerCode n = n := by
    intro n hn
    unfold preprocess_caption at hn
    have hn' : n ∈ pyStrip (pyLower caption) ∨ n = dot := by
      by_cases hdot : (pyStrip (pyLower caption)).getLast? = some dot
      · rw [if_pos hdot] at hn; exact Or.inl hn
      · rw [if_neg hdot, List.mem_append] at hn
        rcases hn with hn | hn
        · exact Or.inl hn
        · exact Or.inr (by simpa using hn)
    rcases hn' with hn' | rfl
    · have := mem_of_mem_pyStrip hn'
      rcases List.mem_map.1 this with ⟨m, _, rfl⟩
      exact toLowerCode_idem m
    · rfl
  refine ⟨?_, ?_, ?_, ?_⟩
  · unfold preprocess_caption
    by_cases hdot : (pyStrip (pyLower caption)).getLast? = some dot
    · rw [if_pos hdot]; exact hdot
    · rw [if_neg hdot]; exact List.getLast?_concat _
  · exact List.all_eq_true.2 (fun n hn => by simp [hmem n hn])
  · unfold strippedEnds
    have hhead : ∀ n, (preprocess_caption caption).head? = some n → isPyWs n = false := by
      intro n hn
      unfold preprocess_caption at hn
      by_cases hdot : (pyStrip (pyLower caption)).getLast? = some dot
      · rw [if_pos hdot] at hn
        exact pyStrip_head?_false hn
      · rw [if_neg hdot] at hn
        cases hr : pyStrip (pyLower caption) with
        | nil =>
          rw [hr] at hn
          simp only [List.nil_append, List.head?_cons, Option.some.injEq] at hn
          subst hn
          rfl
        | cons a t =>
          rw [hr] at hn
          simp only [List.cons_append, List.head?_cons, Option.some.injEq] at hn
          subst hn
          exact pyStrip_head?_false (by rw [hr]; rfl)
    have hlast : ∀ n, (preprocess_caption caption).getLast? = some n → isPyWs n = false := by
      intro n hn
      unfold preprocess_caption at hn
      by_cases hdot : (pyStrip (pyLower caption)).getLast? = some dot
      · rw [if_pos hdot] at hn
        exact pyStrip_getLast?_false hn
      · rw [if_neg hdot, List.getLast?_concat] at hn
        simp only [Option.some.injEq] at hn
        subst hn
        rfl
    cases hh : (preprocess_caption caption).head? with
    | none => cases hl : (preprocess_caption caption).getLast? with
      | none => simp
      | some m => simp [hlast m hl]
    | some n => cases hl : (preprocess_caption caption).getLast? with
      | none => simp [hhead n hh]
      | some m => simp [hhead n hh, hlast m hl]
  · unfold preprocess_caption
    by_cases hdot : (pyStrip (pyLower caption)).getLast? = some dot
    · rw [if_pos hdot]
      have h1 := trailingDots_pos_of_getLast hdot
      omega
    · rw [if_neg hdot]
      obtain ⟨h1, h2⟩ := trailingDots_of_not_getLast hdot
      rw [h1, h2]
      simp

/-- Witness for C10: the score of the kept candidate of the concrete network
is the row maximum of its sigmoid logits and exceeds the threshold 0. -/
theorem forward_scores_exceed_threshold_witness :
    (((0:ℝ) : WithBot ℝ) < ((sigmoid 0 : ℝ) : WithBot ℝ))
  ∧ ∃ row ∈ (Model.rawOutput netW () []).pred_logits,
      ((sigmoid 0 : ℝ) : WithBot ℝ) = (row.map sigmoid).maximum :=
  forward_scores_exceed_threshold netW () [] 0 0 ((sigmoid 0 : ℝ) : WithBot ℝ) (by
    have hkeep : (((0:ℝ) : WithBot ℝ) < ([sigmoid 0] : List ℝ).maximum) := by
      rw [List.maximum_singleton]
      exact WithBot.coe_lt_coe.2 (sigmoid_pos 0)
    rw [Model.forward_def]
    simp only [batch1, List.headD_cons, postFilter_scores_eq]
    have : (Model.rawOutput netW () []).pred_logits.map (fun row => row.map sigmoid)
        = [[sigmoid 0]] := by simp [Model.rawOutput, netW]
    rw [this, List.filter_cons_of_pos (by exact decide_eq_true hkeep), List.filter_nil,
      List.map_cons, List.map_nil, List.maximum_singleton]
    exact List.mem_singleton.2 rfl)

/-! ### Claim theorems: command line and name resolution -/

/-- C7 counterexample: running the script in `--test` mode resolves every
module-global read, including the read of `model` inside `inference_onnx`
(line 140), because `__main__` assigns `model` (line 191) before dispatching;
the run raises no `NameError`. -/
theorem test_mode_no_name_error : (runPy (script true false) []).isSome = true := by
  decide

/-- C7 (amended): `inference_onnx` reads the tokenizer off the module-global
name `model` rather than a parameter — against the bare module globals (no
`__main__` block) that read is unresolved — but `__main__` assigns `model`
before the `--test` dispatch, so the `--test` run as written resolves every
global read and does not fail with a `NameError`. -/
theorem inference_onnx_model_global :
    runPy inferenceOnnxStmts moduleEnv = none
  ∧ (runPy (script true false) []).isSome = true := by
  decide

/-- C8 counterexample: the invocation supplying both `--test` and `--orig`
(together with the three required options) is accepted by the argument
parser. -/
theorem parse_accepts_both_flags :
    parseArgs ["--test", "--orig", "--config_file", "cfg",
      "--checkpoint_path", "ckpt", "--output_dir", "out"]
      = some ⟨true, true, some "cfg", some "ckpt", some "out"⟩ := by
  decide

/-- C8 (amended): `--test` and `--orig` are independent switches, not mutually
exclusive: an invocation supplying both is accepted, and `--test` takes
priority in the dispatch (the `--orig` branch only runs when `--test` is
absent). -/
theorem both_flags_dispatch_test :
    (parseArgs ["--test", "--orig", "--config_file", "cfg",
      "--checkpoint_path", "ckpt", "--output_dir", "out"]).map dispatch
      = some RunMode.runTestOnnx := by
  decide

/-- C9 counterexample: the caption the `--test` path feeds the exported graph
is `preprocess_caption("dog.cat") = "dog.cat."`, not `"cat . dog"` (which is
the native-inference path's caption). -/
theorem test_mode_caption_not_cat_dog :
    testModeCaption = codes "dog.cat."
  ∧ testModeCaption ≠ codes "cat . dog"
  ∧ testModeCaption ≠ preprocess_caption (codes "cat . dog") := by
  decide

/-- C9 (amended): in test mode the exported graph is run on the bundled sample
image with the caption `"dog.cat"` (normalized to `"dog.cat."`); each decoded
detection phrase is built only from that caption's own token-id sequence (the
tokens at the mask's true positions), with the structural periods stripped
from the decoded text. -/
theorem test_mode_phrases_from_caption_tokens :
    testModeCaption = codes "dog.cat."
  ∧ (∀ (input_ids : List ℤ) (mask : List Bool) (t : ℤ),
      t ∈ phraseTokenIds input_ids mask → t ∈ input_ids)
  ∧ (∀ (s : List ℕ) (c : ℕ), c ∈ stripPeriods s → c ≠ dot) := by
  refine ⟨by decide, ?_, ?_⟩
  · intro input_ids mask t ht
    exact mem_of_mem_boolFilter ht
  · intro s c hc
    exact of_decide_eq_true (List.mem_filter.1 hc).2

/-- Witness for C9 (amended) at concrete token ids and a concrete phrase. -/
theorem test_mode_phrases_from_caption_tokens_witness :
    ((3:ℤ) ∈ phraseTokenIds [3, 5] [true, false])
  ∧ ((3:ℤ) ∈ ([3, 5] : List ℤ))
  ∧ ((99:ℕ) ∈ stripPeriods (codes "c."))
  ∧ (99:ℕ) ≠ dot :=
  ⟨by decide,
   test_mode_phrases_from_caption_tokens.2.1 [3, 5] [true, false] 3 (by decide),
   by decide,
   test_mode_phrases_from_caption_tokens.2.2 (codes "c.") 99 (by decide)⟩

end GDINOExport
